import Mathlib

/-!
Shallow embedding of `src/tts.py` (sopel-tts), the message-processing
pipeline of an IRC text-to-speech bot, together with proofs settling the
frozen claims about it.

The Python module is Python 2; strings are modelled as Lean `String`
(lists of unicode code points), machine integers as `Nat`, and code that
can raise an exception as `Option`/`Except`-valued functions.
-/

/-- Characters accepted by Python 2.7 `unicode.strip()` / `unicode.split()`
(the `Py_UNICODE_ISSPACE` table of CPython 2.7, Unicode 5.2). -/
def isPySpace (c : Char) : Bool :=
  let n := c.toNat
  (9 ≤ n && n ≤ 13) || (28 ≤ n && n ≤ 32) || n == 133 || n == 160 ||
    n == 5760 || n == 6158 || (8192 ≤ n && n ≤ 8202) || n == 8232 ||
    n == 8233 || n == 8239 || n == 8287 || n == 12288

/-- ASCII lowercasing, the effect of Python 2 `str.lower()` (C locale) on the
byte strings the module handles; written as an explicit table. -/
def asciiLower (c : Char) : Char :=
  match c with
  | 'A' => 'a' | 'B' => 'b' | 'C' => 'c' | 'D' => 'd' | 'E' => 'e'
  | 'F' => 'f' | 'G' => 'g' | 'H' => 'h' | 'I' => 'i' | 'J' => 'j'
  | 'K' => 'k' | 'L' => 'l' | 'M' => 'm' | 'N' => 'n' | 'O' => 'o'
  | 'P' => 'p' | 'Q' => 'q' | 'R' => 'r' | 'S' => 's' | 'T' => 't'
  | 'U' => 'u' | 'V' => 'v' | 'W' => 'w' | 'X' => 'x' | 'Y' => 'y'
  | 'Z' => 'z'
  | c => c

/-- Left part of Python `.strip()`: drop leading whitespace. -/
def lstripPy (l : List Char) : List Char := l.dropWhile isPySpace

/-- Right part of Python `.strip()`: drop trailing whitespace. -/
def rstripPy (l : List Char) : List Char :=
  (l.reverse.dropWhile isPySpace).reverse

/-- Python `.strip()`: drop leading and trailing whitespace. -/
def pyStrip (l : List Char) : List Char := rstripPy (lstripPy l)

/-- Accumulator for `pyWords`; `acc` holds the current word reversed. -/
def pyWordsAux : List Char → List Char → List (List Char)
  | [], acc => if acc = [] then [] else [acc.reverse]
  | c :: cs, acc =>
    if isPySpace c then
      if acc = [] then pyWordsAux cs [] else acc.reverse :: pyWordsAux cs []
    else pyWordsAux cs (c :: acc)

/-- Python `msg.split()`: maximal runs of non-whitespace characters
(no empty tokens). -/
def pyWords (l : List Char) : List (List Char) := pyWordsAux l []

/-- Python `u' '.join(...)`. -/
def joinSpace : List String → String
  | [] => ""
  | [s] => s
  | s :: ss => s ++ " " ++ joinSpace ss

/-- UTF-8 encoding of one code point (byte values as `Nat`). -/
def utf8Bytes (c : Char) : List Nat :=
  let n := c.toNat
  if n < 128 then [n]
  else if n < 2048 then [192 + n / 64, 128 + n % 64]
  else if n < 65536 then
    [224 + n / 4096, 128 + (n / 64) % 64, 128 + n % 64]
  else
    [240 + n / 262144, 128 + (n / 4096) % 64, 128 + (n / 64) % 64,
      128 + n % 64]

/-- Big-endian integer value of a byte sequence: this is exactly
`int(bytes.encode('hex'), 16)` from `nick2bucket`. -/
def bytesVal (l : List Nat) : Nat := l.foldl (fun acc b => acc * 256 + b) 0

/-- Exceptions `nick2bucket` can raise: `ValueError` from `int('', 16)` on a
whitespace-only nick, `ZeroDivisionError` from `% len(buckets)` on an empty
bucket list. -/
inductive PyErr where
  | valueError
  | zeroDivisionError
deriving DecidableEq

/-- `nick2bucket(nick, buckets)` (src/tts.py:231-232):
`buckets[int(nick.strip().lower().encode('hex'), 16) % len(buckets)]`.
The nick is stripped, ASCII-lowercased, and its byte value (UTF-8) taken
modulo the bucket count. `int('', 16)` raises `ValueError` before the modulus
is evaluated; `% 0` raises `ZeroDivisionError`. The index `v % length` is
always in bounds of the non-empty list, so total `getD` indexing is exact. -/
def nick2bucket {α : Type} (nick : String) (buckets : List α) : Except PyErr α :=
  let s := (pyStrip nick.data).map asciiLower
  if s = [] then .error .valueError
  else
    match buckets with
    | [] => .error .zeroDivisionError
    | b :: bs =>
      .ok ((b :: bs).getD (bytesVal (s.map utf8Bytes).flatten % (b :: bs).length) b)

/-- Split a list at its first `':'`, as `url.find(':')` does; `none` when
there is no colon. -/
def findColon : List Char → Option (List Char × List Char)
  | [] => none
  | c :: cs =>
    if c = ':' then some ([], cs)
    else
      match findColon cs with
      | some pq => some (c :: pq.1, pq.2)
      | none => none

/-- `urlparse.scheme_chars` of CPython 2.7. -/
def scheme_char (c : Char) : Bool :=
  c.isAlpha || c.isDigit || c == '+' || c == '-' || c == '.'

/-- `_splitnetloc` plus the IPv6 bracket check of CPython 2.7 `urlsplit`:
when the remaining url starts with `//`, the netloc runs to the first of
`/?#`; a netloc with `[` but not `]` (or vice versa) raises `ValueError`
(modelled as `none`). -/
def netlocOf (url : List Char) : Option (List Char) :=
  if url.take 2 = ['/', '/'] then
    let nl := (url.drop 2).takeWhile fun c => !(c == '/' || c == '?' || c == '#')
    if (nl.contains '[' && !(nl.contains ']')) ||
        (nl.contains ']' && !(nl.contains '[')) then none
    else some nl
  else some []

/-- The `(scheme, netloc)` part of CPython 2.7 `urlparse.urlparse`, exactly
following `urlsplit`: a scheme needs a colon at position `> 0`; `http` is
special-cased; otherwise the prefix must be scheme chars and the rest must
not be a bare port number. `none` models the uncaught
`ValueError("Invalid IPv6 URL")`. -/
def pyUrlparse (t : String) : Option (String × String) :=
  match findColon t.data with
  | none => (netlocOf t.data).map fun nl => ("", String.mk nl)
  | some pp =>
    if pp.1 = "http".data then
      (netlocOf pp.2).map fun nl => ("http", String.mk nl)
    else if pp.1 ≠ [] ∧ pp.1.all scheme_char = true ∧
        (pp.2 = [] ∨ pp.2.any (fun c => !c.isDigit) = true) then
      (netlocOf pp.2).map fun nl => (String.mk (pp.1.map asciiLower), String.mk nl)
    else
      (netlocOf t.data).map fun nl => ("", String.mk nl)

/-- `url.scheme.startswith('http')` (src/tts.py:239). -/
def schemeIsHttp (scheme : String) : Bool :=
  "http".data.isPrefixOf scheme.data

/-- Python `netloc.split('.')` (keeps empty parts, `[''] ` for `''`). -/
def splitOnDot : List Char → List (List Char)
  | [] => [[]]
  | c :: cs =>
    if c = '.' then [] :: splitOnDot cs
    else
      match splitOnDot cs with
      | [] => [[c]]
      | w :: ws => (c :: w) :: ws

/-- Python `u'.'.join(...)`. -/
def joinDot : List (List Char) → List Char
  | [] => []
  | [w] => w
  | w :: ws => w ++ '.' :: joinDot ws

/-- `1 == len(set(part))`: the part is non-empty and all one character. -/
def homog : List Char → Bool
  | [] => false
  | c :: cs => cs.all (· == c)

/-- `EMPHASIS_TEMPLATE.format(level, s)` (src/tts.py:34). -/
def emphasisTag (level s : String) : String :=
  "<emphasis level=\"" ++ level ++ "\">" ++ s ++ "</emphasis>"

/-- `PHONEME_TEMPLATE.format(ph, s)` (src/tts.py:33). -/
def phonemeTag (ph s : String) : String :=
  "<phoneme ph=\"" ++ ph ++ "\">" ++ s ++ "</phoneme>"

/-- The URL branch of `clean_token` (src/tts.py:240-249): drop a leading
1-3 character homogeneous domain label, wrap the host in strong emphasis.
(The `except` clause at src/tts.py:250-251 is unreachable: no statement in
the `try` body can raise.) -/
def url_branch (netloc : String) : String :=
  let parts := splitOnDot netloc.data
  let first := parts.headD []
  let host :=
    if first.length ≤ 3 ∧ homog first = true then joinDot (parts.drop 1)
    else netloc.data
  emphasisTag "strong" (String.mk host)

/-- `TOKEN_REPLACEMENT_MAP` (src/tts.py:35-39). The Python regexes `lol`,
`\<3` and `\\o/` are the literals `lol`, `<3`, `\o/`, matched at the start
of the token, case-insensitively. Their match sets are pairwise disjoint
(distinct first characters), so the arbitrary Python 2 dict iteration order
cannot change behaviour; source order is used here. `none` would model a
pattern mapped to Python `None` (dropped token); the map contains none. -/
def TOKEN_REPLACEMENT_MAP : List (String × Option String) :=
  [("lol", some "ph:l o l"), ("<3", some "heart"), ("\\o/", some "hurray")]

/-- `re.match(rgx, t, re.I)` for the literal patterns of the table:
case-insensitive prefix match. -/
def ciPrefixMatch (pat t : String) : Bool :=
  (pat.data.map asciiLower).isPrefixOf (t.data.map asciiLower)

/-- First table entry whose pattern matches the token (src/tts.py:253-254). -/
def findReplacement (t : String) : Option (Option String) :=
  (TOKEN_REPLACEMENT_MAP.find? fun e => ciPrefixMatch e.1 t).map (·.2)

/-- Apply a matched table entry to the token (src/tts.py:255-260): `None`
drops the token, a `ph:`-entry wraps the original, un-escaped token in
phoneme markup, anything else is a literal replacement. -/
def applyReplacement (ph : Option String) (t : String) : String :=
  match ph with
  | none => ""
  | some p =>
    if "ph:".data.isPrefixOf p.data then phonemeTag (String.mk (p.data.drop 3)) t
    else p

/-- Run-length encoding of a character list. -/
def rle : List Char → List (Char × Nat)
  | [] => []
  | c :: cs =>
    match rle cs with
    | [] => [(c, 1)]
    | (d, n) :: rest =>
      if c = d then (c, n + 1) :: rest else (c, 1) :: (d, n) :: rest

/-- Decode a run-length encoding. -/
def rleDecode : List (Char × Nat) → List Char
  | [] => []
  | (c, n) :: rest => List.replicate n c ++ rleDecode rest

/-- Effect of `re.sub(r'((.)\2)(\2{2,})', r'\1', t)` on one maximal run:
the pattern matches 2+2-or-more equal characters, so runs of length 4 and
more collapse to 2 and shorter runs are left alone; `.` does not match a
newline. -/
def squashRun (p : Char × Nat) : Char × Nat :=
  if p.1 ≠ '\n' ∧ 4 ≤ p.2 then (p.1, 2) else p

/-- The repeated-character collapse of `clean_token` (src/tts.py:261-262),
`re.sub(r'((.)\2)(\2{2,})', r'\1', t)`: every maximal run of 4 or more
equal non-newline characters becomes exactly 2. -/
def collapse_repeats (t : String) : String :=
  String.mk (rleDecode ((rle t.data).map squashRun))

/-- One character of `xml.sax.saxutils.escape`. -/
def xmlEscapeChar (c : Char) : List Char :=
  if c = '&' then "&amp;".data
  else if c = '<' then "&lt;".data
  else if c = '>' then "&gt;".data
  else [c]

/-- `xml_escape` = `xml.sax.saxutils.escape`: `&`, `<`, `>` escaped. -/
def xml_escape (s : String) : String := String.mk (s.data.map xmlEscapeChar).flatten

/-- The `*word*` emphasis step of `clean_token` (src/tts.py:264-265). -/
def asteriskEmphasis (t : String) : String :=
  if t.data.head? = some '*' ∧ t.data.getLast? = some '*' ∧ 3 ≤ t.data.length then
    emphasisTag "strong" (String.mk ((t.data.drop 1).dropLast))
  else t

/-- `clean_token(t)` (src/tts.py:237-266). `none` models the uncaught
`ValueError` that `urlparse.urlparse` (called outside the `try`) raises on a
token with an unbalanced-bracket netloc; every other path returns a string:
the URL branch for an `http*` scheme, an immediate return for a table match,
otherwise collapse, `.strip()`, escape and asterisk emphasis. -/
def clean_token (t : String) : Option String :=
  match pyUrlparse t with
  | none => none
  | some sn =>
    if schemeIsHttp sn.1 then some (url_branch sn.2)
    else
      match findReplacement t with
      | some ph => some (applyReplacement ph t)
      | none =>
        some (asteriskEmphasis
          (xml_escape (String.mk (pyStrip (collapse_repeats t).data))))

/-- `clean_message(msg)` (src/tts.py:234-235):
`u' '.join(clean_token(t) for t in msg.split()).strip()`; `none` when some
token raises (the exception propagates out of the worker's call). -/
def clean_message (msg : String) : Option String :=
  ((pyWords msg.data).mapM fun w => clean_token (String.mk w)).map
    fun ts => String.mk (pyStrip (joinSpace ts).data)

/-- The garbage gate of `handle_messages` (src/tts.py:164-167): synthesis is
reached only when the cleaned message is truthy (non-empty); a raising
`clean_message` crashes the worker before synthesis. -/
def proceeds_to_synthesis (orig : String) : Bool :=
  match clean_message orig with
  | some m => !(m == "")
  | none => false

/-- Does the string contain a printable ASCII character (0x20-0x7e)? -/
def containsPrintableAscii (s : String) : Bool :=
  s.data.any fun c => 32 ≤ c.toNat && c.toNat ≤ 126

/-- The per-voice data `handle_messages` consumes. -/
structure Voice where
  service : String
  name : String
  lang_id : String
deriving DecidableEq

/-- Python `sub in s`: substring containment. -/
def infixCheck (sub : List Char) : List Char → Bool
  | [] => sub.isEmpty
  | c :: cs => sub.isPrefixOf (c :: cs) || infixCheck sub cs

/-- `[v for v in voices if v.lang_id.startswith(msg_lang + '-')]`
(src/tts.py:187). -/
def lang_filtered (voices : List Voice) (msg_lang : String) : List Voice :=
  voices.filter fun v => (msg_lang ++ "-").data.isPrefixOf v.lang_id.data

/-- The voice-subset selection of `handle_messages` (src/tts.py:187-190):
language filter, then — when `prefer_wavenet` is set and any voice of the
FULL catalog has `Wavenet` in its name — replacement of the subset by all
`Wavenet` voices of the FULL catalog (both occurrences of `voices` in the
source are the unfiltered list). -/
def select_msg_voices (voices : List Voice) (msg_lang : String)
    (prefer_wavenet : Bool) : List Voice :=
  let msg_voices := lang_filtered voices msg_lang
  if prefer_wavenet && voices.any (fun v => infixCheck "Wavenet".data v.name.data) then
    voices.filter fun v => infixCheck "Wavenet".data v.name.data
  else msg_voices

/-- The language-resolution of `handle_messages` (src/tts.py:174-186):
forced language short-circuits classification; otherwise a low-confidence
detection falls back to the default, and so does a detected language with no
voice family. Confidence values are modelled as rationals. -/
def resolve_language (force : Bool) (defaultLang : String) (threshold prob : ℚ)
    (voiceLangs : List String) (detected : String) : String :=
  if force then defaultLang
  else
    let l1 := if prob < threshold then defaultLang else detected
    if voiceLangs.contains l1 then l1 else defaultLang

/-- `TTSHelper.write_to_tmp_file` (src/tts.py:348-363) over an abstract disk
(list of file paths): `mkstemp` creates the file `fn`; the `write` either
succeeds (the name is returned) or raises (caught: `None` is returned).
Neither branch unlinks, so the file stays on disk in both. -/
def write_to_tmp_file (disk : List String) (fn : String) (writeOk : Bool) :
    List String × Option String :=
  (fn :: disk, if writeOk then some fn else none)

/-- The persistence tail of the `handle_messages` loop (src/tts.py:203-206):
enqueue the temp file name on the audio queue only when it is not `None`.
Returns (audio queue, disk). -/
def synth_persist_step (audioQ disk : List String) (fn : String)
    (writeOk : Bool) : List String × List String :=
  let r := write_to_tmp_file disk fn writeOk
  match r.2 with
  | some f => (audioQ ++ [f], r.1)
  | none => (audioQ, r.1)

/-- Does a file name match the startup purge glob `sopel-tts-*.*`
(src/tts.py:341)? -/
def is_tmp_artifact (fn : String) : Bool :=
  "sopel-tts-".data.isPrefixOf fn.data && (fn.data.drop 10).contains '.'

/-- `TTSHelper.purge_tmp_files` (src/tts.py:340-343): unlink every stale
artifact at worker startup. -/
def purge_tmp_files (disk : List String) : List String :=
  disk.filter fun fn => !(is_tmp_artifact fn)

/-- One iteration of the `play_audio` loop body after dequeue
(src/tts.py:216-227): `subprocess.call` either raises (`none`; the except
arm only logs) or returns an exit code (`some code`; the else arm unlinks
the file — the exit code itself is ignored). -/
def play_audio_step (disk : List String) (fn : String)
    (callResult : Option Int) : List String :=
  match callResult with
  | none => disk
  | some _ => disk.filter fun g => !(g == fn)

/-- Adjacent-run separation: the head run of `rest` does not start with `c`. -/
def headSep (c : Char) : List (Char × Nat) → Prop
  | [] => True
  | q :: _ => c ≠ q.1

/-- Well-formed run-length encodings: positive counts, adjacent runs of
distinct characters. -/
def ValidRLE : List (Char × Nat) → Prop
  | [] => True
  | p :: rest => 0 < p.2 ∧ headSep p.1 rest ∧ ValidRLE rest

/-- A non-Wavenet English voice, as AWS Polly lists it. -/
def aStandardEn : Voice := ⟨"aws", "Joanna", "en-US"⟩

/-- A Wavenet German voice, as Google Cloud lists it. -/
def gWavenetDe : Voice := ⟨"google-cloud", "de-DE-Wavenet-A", "de-DE"⟩

/-! ## Helper lemmas -/

theorem contains_filter_false (p : String → Bool) (fn : String) (l : List String)
    (hp : p fn = false) : (l.filter p).contains fn = false := by
  induction l with
  | nil => rfl
  | cons x xs ih =>
    rw [List.filter_cons]
    by_cases hx : x = fn
    · subst hx; rw [hp]; exact ih
    · split
      · have hbe : (fn == x) = false := beq_eq_false_iff_ne.mpr (Ne.symm hx)
        simp only [List.contains_cons, hbe, Bool.false_or]
        exact ih
      · exact ih

/-! ## C1: playback-worker artifact deletion -/

/-- C1 counterexample: when the playback invocation raises (the `except` arm
of src/tts.py:219-223), the artifact file is NOT deleted — it is still on
disk — contradicting the claim that it is deleted on playback command
failure as well. -/
theorem play_audio_raise_keeps_file :
    play_audio_step ["sopel-tts-1.mp3"] "sopel-tts-1.mp3" none = ["sopel-tts-1.mp3"] ∧
    (play_audio_step ["sopel-tts-1.mp3"] "sopel-tts-1.mp3" none).contains
      "sopel-tts-1.mp3" = true :=
  ⟨rfl, by decide⟩

/-- C1 (amended): the dequeued artifact is deleted exactly when the playback
call returns (any exit status, success or failing command); when the call
raises an exception the handler only logs and the file stays on disk. -/
theorem play_audio_delete_on_return : ∀ (disk : List String) (fn : String) (code : Int),
    (play_audio_step disk fn (some code)).contains fn = false ∧
    play_audio_step disk fn none = disk := by
  intro disk fn code
  exact ⟨contains_filter_false _ fn disk (by simp), rfl⟩

/-! ## C3: preferred-tier (Wavenet) filter -/

/-- C3: with `prefer_wavenet` on, a catalog whose English subset has no
Wavenet voice but whose German voice is Wavenet yields the German Wavenet
voice — the filter tests and rebuilds from the FULL catalog, discarding the
language-filtered subset instead of leaving it unchanged. -/
theorem prefer_wavenet_ignores_lang_subset :
    lang_filtered [aStandardEn, gWavenetDe] "en" = [aStandardEn] ∧
    infixCheck "Wavenet".data aStandardEn.name.data = false ∧
    select_msg_voices [aStandardEn, gWavenetDe] "en" true = [gWavenetDe] :=
  ⟨by decide, by decide, by decide⟩

/-! ## C7: empty bucket collection -/

/-- C7 counterexample: a whitespace-only identity with an empty collection
fails with `ValueError` (from `int('', 16)`), which is raised before the
`% len(buckets)` that would produce the empty-collection
(`ZeroDivisionError` / `EmptyBucketSet`) error — so not every identity
fails with the EmptyBucketSet error. -/
theorem nick2bucket_empty_nick_valueerror :
    nick2bucket "  " ([] : List Nat) = Except.error PyErr.valueError := rfl

/-- C7 (amended): for every identity with at least one non-whitespace
character, `nick2bucket` on an empty collection fails with the
empty-collection error (`ZeroDivisionError`, the spec's `EmptyBucketSet`). -/
theorem nick2bucket_empty_buckets_zerodiv : ∀ {α : Type} (I : String),
    pyStrip I.data ≠ [] →
    nick2bucket I ([] : List α) = Except.error PyErr.zeroDivisionError := by
  intro α I h
  unfold nick2bucket
  rw [if_neg (by simpa using h)]

/-- C7 witness: the concrete identity `bob` with an empty collection. -/
theorem nick2bucket_empty_buckets_zerodiv_w :
    nick2bucket "bob" ([] : List Nat) = Except.error PyErr.zeroDivisionError :=
  nick2bucket_empty_buckets_zerodiv "bob" (by decide)

/-! ## C8: language resolution -/

/-- C8: the resolved synthesis language is the configured default exactly
when the language is forced, or the confidence is below the threshold, or
the detected language has no voice family; otherwise it is the detected
language. (With `force` set the result does not depend on the detector
output at all — classification is skipped.) -/
theorem resolve_language_spec : ∀ (f : Bool) (d : String) (thr p : ℚ)
    (langs : List String) (det : String),
    resolve_language f d thr p langs det =
      if f = true ∨ p < thr ∨ langs.contains det = false then d else det := by
  intro f d thr p langs det
  unfold resolve_language
  cases f with
  | true => simp
  | false =>
    simp only [Bool.false_eq_true, if_false, false_or]
    by_cases hp : p < thr
    · simp only [hp, if_true, true_or]
      split <;> rfl
    · simp only [hp, if_false, false_or]
      by_cases hd : langs.contains det
      · simp [hd]
      · simp [Bool.of_not_eq_true hd]

/-! ## C9: persistence failure -/

/-- C9 counterexample: after a failed write, nothing is enqueued but the
temp file created by `mkstemp` is still on disk (nothing unlinks it in
`write_to_tmp_file`), contradicting "no artifact file is leaked on disk". -/
theorem persist_fail_leaves_file :
    synth_persist_step [] [] "sopel-tts-1.mp3" false = ([], ["sopel-tts-1.mp3"]) := rfl

/-- C9 (amended): on persistence failure the worker enqueues nothing (the
message is dropped, the loop continues), but the freshly created temp file
remains on disk; it is removed only by `purge_tmp_files` at a later worker
startup, whose glob matches the `sopel-tts-*.*` name. -/
theorem persist_fail_no_enqueue_leak : ∀ (q disk : List String) (fn : String),
    is_tmp_artifact fn = true →
    (synth_persist_step q disk fn false).1 = q ∧
    (synth_persist_step q disk fn false).2.contains fn = true ∧
    (purge_tmp_files ((synth_persist_step q disk fn false).2)).contains fn = false := by
  intro q disk fn hfn
  refine ⟨rfl, ?_, ?_⟩
  · simp [synth_persist_step, write_to_tmp_file, List.contains_cons]
  · exact contains_filter_false _ fn _ (by simp [hfn])

/-- C9 witness: a concrete failed write of `sopel-tts-a.mp3`. -/
theorem persist_fail_no_enqueue_leak_w :
    (synth_persist_step [] [] "sopel-tts-a.mp3" false).1 = [] ∧
    (synth_persist_step [] [] "sopel-tts-a.mp3" false).2.contains "sopel-tts-a.mp3" = true ∧
    (purge_tmp_files ((synth_persist_step [] [] "sopel-tts-a.mp3" false).2)).contains
      "sopel-tts-a.mp3" = false :=
  persist_fail_no_enqueue_leak [] [] "sopel-tts-a.mp3" (by decide)

/-! ## Run-length lemmas for the repeated-character collapse -/

theorem rle_cons_head (c : Char) (cs : List Char) :
    ∃ n rest, rle (c :: cs) = (c, n) :: rest ∧ 0 < n := by
  cases h : rle cs with
  | nil => exact ⟨1, [], by simp [rle, h], Nat.one_pos⟩
  | cons p rest =>
    obtain ⟨d, n⟩ := p
    by_cases hc : c = d
    · subst hc
      exact ⟨n + 1, rest, by simp [rle, h], Nat.succ_pos n⟩
    · exact ⟨1, (d, n) :: rest, by simp [rle, h, hc], Nat.one_pos⟩

theorem rle_valid (l : List Char) : ValidRLE (rle l) := by
  induction l with
  | nil => trivial
  | cons c cs ih =>
    cases h : rle cs with
    | nil =>
      rw [show rle (c :: cs) = [(c, 1)] by simp [rle, h]]
      exact ⟨Nat.one_pos, trivial, trivial⟩
    | cons p rest =>
      obtain ⟨d, n⟩ := p
      rw [h] at ih
      obtain ⟨hn, hsep, hrest⟩ := ih
      by_cases hc : c = d
      · subst hc
        rw [show rle (c :: cs) = (c, n + 1) :: rest by simp [rle, h]]
        exact ⟨Nat.succ_pos n, hsep, hrest⟩
      · rw [show rle (c :: cs) = (c, 1) :: (d, n) :: rest by simp [rle, h, hc]]
        exact ⟨Nat.one_pos, hc, hn, hsep, hrest⟩

theorem rle_cons_ne (c : Char) (l : List Char)
    (hhead : ∀ d, l.head? = some d → c ≠ d) :
    rle (c :: l) = (c, 1) :: rle l := by
  cases l with
  | nil => rfl
  | cons e es =>
    obtain ⟨n₀, rest₀, hr, _⟩ := rle_cons_head e es
    have hrw : rle (c :: e :: es) = match rle (e :: es) with
        | [] => [(c, 1)]
        | (d, n) :: rest =>
          if c = d then (c, n + 1) :: rest else (c, 1) :: (d, n) :: rest := rfl
    have key : rle (c :: e :: es)
        = if c = e then (c, n₀ + 1) :: rest₀ else (c, 1) :: (e, n₀) :: rest₀ := by
      rw [hrw, hr]
    rw [key, if_neg (hhead e rfl), hr]

theorem rle_cons_eq (c : Char) (l : List Char) (n : Nat) (rest : List (Char × Nat))
    (h : rle l = (c, n) :: rest) : rle (c :: l) = (c, n + 1) :: rest := by
  simp [rle, h]

theorem rle_replicate_append (c : Char) (l : List Char)
    (hhead : ∀ d, l.head? = some d → c ≠ d) :
    ∀ n, rle (List.replicate (n + 1) c ++ l) = (c, n + 1) :: rle l := by
  intro n
  induction n with
  | zero =>
    rw [List.replicate_succ, List.replicate_zero, List.cons_append, List.nil_append]
    exact rle_cons_ne c l hhead
  | succ k ih =>
    rw [List.replicate_succ, List.cons_append]
    exact rle_cons_eq c _ _ _ ih

theorem rleDecode_head (c : Char) (n : Nat) (rest : List (Char × Nat)) (hn : 0 < n) :
    (rleDecode ((c, n) :: rest)).head? = some c := by
  cases n with
  | zero => omega
  | succ m => simp [rleDecode, List.replicate_succ]

theorem rle_rleDecode : ∀ r : List (Char × Nat), ValidRLE r → rle (rleDecode r) = r := by
  intro r
  induction r with
  | nil => intro _; rfl
  | cons p rest ih =>
    obtain ⟨c, n⟩ := p
    intro hv
    obtain ⟨hn, hsep, hrest⟩ := hv
    have hhead : ∀ d, (rleDecode rest).head? = some d → c ≠ d := by
      intro d hd
      cases rest with
      | nil => simp [rleDecode] at hd
      | cons q rest' =>
        obtain ⟨e, m⟩ := q
        rw [rleDecode_head e m rest' hrest.1] at hd
        cases hd
        exact hsep
    cases n with
    | zero => omega
    | succ m =>
      show rle (List.replicate (m + 1) c ++ rleDecode rest) = (c, m + 1) :: rest
      rw [rle_replicate_append c _ hhead m, ih hrest]

theorem squashRun_fst (p : Char × Nat) : (squashRun p).1 = p.1 := by
  unfold squashRun
  split <;> rfl

theorem squash_valid : ∀ r : List (Char × Nat), ValidRLE r → ValidRLE (r.map squashRun) := by
  intro r
  induction r with
  | nil => intro _; trivial
  | cons p rest ih =>
    intro hv
    obtain ⟨hn, hsep, hrest⟩ := hv
    refine ⟨?_, ?_, ih hrest⟩
    · show 0 < (squashRun p).2
      unfold squashRun
      split
      · exact Nat.succ_pos 1
      · exact hn
    · show headSep (squashRun p).1 (rest.map squashRun)
      rw [squashRun_fst]
      cases rest with
      | nil => trivial
      | cons q rest' =>
        show p.1 ≠ (squashRun q).1
        rw [squashRun_fst]
        exact hsep

theorem squashRun_idem (p : Char × Nat) : squashRun (squashRun p) = squashRun p := by
  unfold squashRun
  split
  · exact if_neg fun hh => absurd hh.2 (by omega)
  · rfl

theorem map_squash_idem (r : List (Char × Nat)) :
    (r.map squashRun).map squashRun = r.map squashRun := by
  induction r with
  | nil => rfl
  | cons p rest ih => simp [squashRun_idem, ih]

/-! ## C5: idempotence of the collapse -/

/-- C5: applying the repeated-character collapse of `clean_token` twice
yields the same result as applying it once. -/
theorem collapse_repeats_idempotent : ∀ s : String,
    collapse_repeats (collapse_repeats s) = collapse_repeats s := by
  intro s
  show String.mk (rleDecode ((rle (rleDecode ((rle s.data).map squashRun))).map squashRun))
      = String.mk (rleDecode ((rle s.data).map squashRun))
  rw [rle_rleDecode _ (squash_valid _ (rle_valid s.data)), map_squash_idem]

/-! ## C4: what the collapse does to runs -/

/-- C4 counterexample: a run of exactly three identical characters is NOT
collapsed — the regex `((.)\2)(\2{2,})` needs at least four — so `aaa`
survives untouched, both in the collapse step and through `clean_token`. -/
theorem collapse_keeps_run_of_three :
    collapse_repeats "aaa" = "aaa" ∧ clean_token "aaa" = some "aaa" := ⟨rfl, rfl⟩

theorem rle_replicate (c : Char) (n : Nat) :
    rle (List.replicate (n + 1) c) = [(c, n + 1)] := by
  have h := rle_replicate_append c [] (fun d hd => by simp at hd) n
  rw [List.append_nil] at h
  rw [h]
  rfl

/-- C4 (amended): a maximal run of `n` identical non-newline characters is
collapsed to exactly 2 characters when `n ≥ 4` and left unchanged when
`n ≤ 3` (the source comment says "repeated 4+ times", the regex needs 2+2
characters). -/
theorem collapse_run_behavior : ∀ (c : Char) (n : Nat), c ≠ '\n' →
    collapse_repeats (String.mk (List.replicate n c)) =
      String.mk (List.replicate (if 4 ≤ n then 2 else n) c) := by
  intro c n hc
  cases n with
  | zero => rfl
  | succ m =>
    show String.mk (rleDecode ((rle (List.replicate (m + 1) c)).map squashRun)) = _
    rw [rle_replicate c m]
    simp only [List.map_cons, List.map_nil]
    unfold squashRun
    by_cases h4 : 4 ≤ m + 1
    · rw [if_pos ⟨hc, h4⟩, if_pos h4]
      simp [rleDecode]
    · rw [if_neg fun hh => h4 hh.2, if_neg h4]
      simp [rleDecode]

/-- C4 witness: a run of five `o` collapses to two. -/
theorem collapse_run_behavior_w :
    collapse_repeats (String.mk (List.replicate 5 'o')) =
      String.mk (List.replicate (if 4 ≤ 5 then 2 else 5) 'o') :=
  collapse_run_behavior 'o' 5 (by decide)

/-! ## Whitespace and case lemmas for `nick2bucket` -/

theorem dropWhile_append_all (p : Char → Bool) (l₁ l₂ : List Char)
    (h : l₁.all p = true) : (l₁ ++ l₂).dropWhile p = l₂.dropWhile p := by
  induction l₁ with
  | nil => rfl
  | cons c cs ih =>
    simp only [List.all_cons, Bool.and_eq_true] at h
    simp only [List.cons_append, List.dropWhile, h.1]
    exact ih h.2

theorem dropWhile_all_nil (p : Char → Bool) (l : List Char)
    (h : l.all p = true) : l.dropWhile p = [] := by
  induction l with
  | nil => rfl
  | cons c cs ih =>
    simp only [List.all_cons, Bool.and_eq_true] at h
    simp only [List.dropWhile, h.1]
    exact ih h.2

theorem dropWhile_append_not_all (p : Char → Bool) (l₁ l₂ : List Char)
    (h : l₁.all p = false) : (l₁ ++ l₂).dropWhile p = l₁.dropWhile p ++ l₂ := by
  induction l₁ with
  | nil => simp at h
  | cons c cs ih =>
    by_cases hc : p c = true
    · simp only [List.all_cons, hc, Bool.true_and] at h
      simp only [List.cons_append, List.dropWhile, hc]
      exact ih h
    · have hc' : p c = false := by simpa using hc
      simp [List.dropWhile, hc']

theorem all_reverse_eq (p : Char → Bool) (l : List Char) :
    l.reverse.all p = l.all p := by
  induction l with
  | nil => rfl
  | cons c cs ih => simp [List.all_append, ih, Bool.and_comm]

theorem rstripPy_append_all (l suf : List Char) (h : suf.all isPySpace = true) :
    rstripPy (l ++ suf) = rstripPy l := by
  unfold rstripPy
  rw [List.reverse_append,
    dropWhile_append_all _ _ _ (by rw [all_reverse_eq]; exact h)]

theorem pyStrip_prepend_all (pre l : List Char) (h : pre.all isPySpace = true) :
    pyStrip (pre ++ l) = pyStrip l := by
  unfold pyStrip lstripPy
  rw [dropWhile_append_all _ _ _ h]

theorem pyStrip_append_all (l suf : List Char) (h : suf.all isPySpace = true) :
    pyStrip (l ++ suf) = pyStrip l := by
  unfold pyStrip lstripPy
  by_cases hl : l.all isPySpace = true
  · rw [dropWhile_append_all _ _ _ hl, dropWhile_all_nil _ _ h,
      dropWhile_all_nil _ _ hl]
  · have hl' : l.all isPySpace = false := by simpa using hl
    rw [dropWhile_append_not_all _ _ _ hl']
    exact rstripPy_append_all _ _ h

theorem dropWhile_map_inv (f : Char → Char) (p : Char → Bool)
    (hp : ∀ c, p (f c) = p c) (l : List Char) :
    (l.map f).dropWhile p = (l.dropWhile p).map f := by
  induction l with
  | nil => rfl
  | cons c cs ih =>
    by_cases hc : p c = true
    · simp only [List.map_cons, List.dropWhile, hp c, hc]
      exact ih
    · have hc' : p c = false := by simpa using hc
      simp [List.dropWhile, hp c, hc']

theorem isPySpace_asciiLower (c : Char) : isPySpace (asciiLower c) = isPySpace c := by
  unfold asciiLower
  split <;> rfl

theorem pyStrip_map_lower (l : List Char) :
    pyStrip (l.map asciiLower) = (pyStrip l).map asciiLower := by
  unfold pyStrip lstripPy rstripPy
  rw [dropWhile_map_inv _ _ isPySpace_asciiLower, ← List.map_reverse,
    dropWhile_map_inv _ _ isPySpace_asciiLower, List.map_reverse]

theorem nick2bucket_congr {α : Type} (C : List α) (I J : String)
    (h : (pyStrip I.data).map asciiLower = (pyStrip J.data).map asciiLower) :
    nick2bucket I C = nick2bucket J C := by
  unfold nick2bucket
  rw [h]

/-! ## C6: determinism and normalization invariance of bucket selection -/

/-- C6: `nick2bucket` is deterministic (identical arguments give identical
results), and the selection is invariant both under leading/trailing
whitespace on the identity and under ASCII letter case, because the
identity is stripped and lowercased before its bytes are hashed. -/
theorem nick2bucket_det_invariant :
    (∀ (α : Type) (I₁ I₂ : String) (C₁ C₂ : List α), I₁ = I₂ → C₁ = C₂ →
      nick2bucket I₁ C₁ = nick2bucket I₂ C₂) ∧
    (∀ (α : Type) (C : List α) (I : String) (pre suf : List Char),
      pre.all isPySpace = true → suf.all isPySpace = true →
      nick2bucket (String.mk (pre ++ I.data ++ suf)) C = nick2bucket I C) ∧
    (∀ (α : Type) (C : List α) (I J : String),
      I.data.map asciiLower = J.data.map asciiLower →
      nick2bucket I C = nick2bucket J C) := by
  refine ⟨?_, ?_, ?_⟩
  · intro α I₁ I₂ C₁ C₂ h1 h2
    rw [h1, h2]
  · intro α C I pre suf hpre hsuf
    apply nick2bucket_congr
    have hs : pyStrip (pre ++ I.data ++ suf) = pyStrip I.data := by
      rw [List.append_assoc, pyStrip_prepend_all _ _ hpre, pyStrip_append_all _ _ hsuf]
    rw [show (String.mk (pre ++ I.data ++ suf)).data = pre ++ I.data ++ suf from rfl, hs]
  · intro α C I J h
    apply nick2bucket_congr
    rw [← pyStrip_map_lower, ← pyStrip_map_lower, h]

/-- C6 witness: concrete identity `alice` in a three-element collection —
repeated, whitespace-padded and upper-cased calls all select element 0. -/
theorem nick2bucket_det_invariant_w :
    nick2bucket "alice" [0, 1, 2] = nick2bucket "alice" [0, 1, 2] ∧
    nick2bucket (String.mk ([' '] ++ "alice".data ++ [' ', ' '])) [0, 1, 2] =
      nick2bucket "alice" [0, 1, 2] ∧
    nick2bucket "ALICE" [0, 1, 2] = nick2bucket "alice" [0, 1, 2] ∧
    nick2bucket "ALICE" [0, 1, 2] = Except.ok 0 :=
  ⟨nick2bucket_det_invariant.1 Nat "alice" "alice" _ _ rfl rfl,
   nick2bucket_det_invariant.2.1 Nat [0, 1, 2] "alice" [' '] [' ', ' ']
     (by decide) (by decide),
   nick2bucket_det_invariant.2.2 Nat [0, 1, 2] "ALICE" "alice" (by decide),
   rfl⟩

/-! ## C2: the garbage gate -/

/-- C2 counterexample: the message `é` normalizes to itself — non-empty and
containing no printable ASCII character — and still proceeds to synthesis:
this variant of `clean_message` contains no printable-ASCII check, so such a
message is neither returned as empty nor dropped. -/
theorem clean_message_nonascii_not_dropped :
    clean_message "é" = some "é" ∧
    containsPrintableAscii "é" = false ∧
    proceeds_to_synthesis "é" = true := ⟨rfl, rfl, rfl⟩

/-- C2 (amended): whether a message is dropped before synthesis is decided
by emptiness of the cleaned text alone — every message whose cleaned form
is non-empty reaches synthesis, printable ASCII or not. -/
theorem clean_message_drop_only_empty : ∀ (msg m : String),
    clean_message msg = some m → m ≠ "" → proceeds_to_synthesis msg = true := by
  intro msg m h hm
  unfold proceeds_to_synthesis
  rw [h]
  simp [hm]

/-- C2 witness: the concrete message `é`. -/
theorem clean_message_drop_only_empty_w : proceeds_to_synthesis "é" = true :=
  clean_message_drop_only_empty "é" "é" rfl (by decide)

/-! ## Lemmas on the url pre-parse for C10 -/

theorem findColon_decomp : ∀ (l : List Char) (pp : List Char × List Char),
    findColon l = some pp → l = pp.1 ++ ':' :: pp.2 := by
  intro l
  induction l with
  | nil => intro pp h; exact absurd h (by simp [findColon])
  | cons c cs ih =>
    intro pp h
    by_cases hc : c = ':'
    · subst hc
      rw [show findColon (':' :: cs) = some ([], cs) from by simp [findColon]] at h
      injection h with h
      rw [← h]
      rfl
    · rw [show findColon (c :: cs)
          = match findColon cs with
            | some pq => some (c :: pq.1, pq.2)
            | none => none from by simp [findColon, hc]] at h
      cases hf : findColon cs with
      | none => rw [hf] at h; exact absurd h (by simp)
      | some pq =>
        rw [hf] at h
        injection h with h
        rw [← h]
        show c :: cs = (c :: pq.1) ++ ':' :: pq.2
        rw [List.cons_append, ← ih pq hf]

theorem isPrefixOf_head (a : Char) (as l : List Char)
    (h : (a :: as).isPrefixOf l = true) : l.head? = some a := by
  cases l with
  | nil => simp [List.isPrefixOf] at h
  | cons b bs =>
    simp only [List.isPrefixOf, Bool.and_eq_true, beq_iff_eq] at h
    rw [h.1]
    rfl

theorem pyUrlparse_scheme_head (t : String) (pr : String × String)
    (h : pyUrlparse t = some pr) :
    pr.1.data = [] ∨ pr.1.data.head? = (t.data.map asciiLower).head? := by
  cases hfc : findColon t.data with
  | none =>
    have hred : pyUrlparse t = (netlocOf t.data).map fun nl => ("", String.mk nl) := by
      unfold pyUrlparse
      rw [hfc]
    rw [hred] at h
    rcases Option.map_eq_some'.mp h with ⟨nl, _, heq⟩
    left
    rw [← heq]
  | some pp =>
    have hred : pyUrlparse t =
        (if pp.1 = "http".data then
          (netlocOf pp.2).map fun nl => ("http", String.mk nl)
        else if pp.1 ≠ [] ∧ pp.1.all scheme_char = true ∧
            (pp.2 = [] ∨ pp.2.any (fun c => !c.isDigit) = true) then
          (netlocOf pp.2).map fun nl => (String.mk (pp.1.map asciiLower), String.mk nl)
        else
          (netlocOf t.data).map fun nl => ("", String.mk nl)) := by
      unfold pyUrlparse
      rw [hfc]
    rw [hred] at h
    by_cases h1 : pp.1 = "http".data
    · rw [if_pos h1] at h
      rcases Option.map_eq_some'.mp h with ⟨nl, _, heq⟩
      right
      rw [← heq, findColon_decomp t.data pp hfc, h1]
      rfl
    · rw [if_neg h1] at h
      by_cases h2 : pp.1 ≠ [] ∧ pp.1.all scheme_char = true ∧
          (pp.2 = [] ∨ pp.2.any (fun c => !c.isDigit) = true)
      · rw [if_pos h2] at h
        rcases Option.map_eq_some'.mp h with ⟨nl, _, heq⟩
        right
        obtain ⟨c0, rest0, hpre⟩ : ∃ c0 rest0, pp.1 = c0 :: rest0 := by
          cases hp : pp.1 with
          | nil => exact absurd hp h2.1
          | cons a b => exact ⟨a, b, rfl⟩
        rw [← heq, findColon_decomp t.data pp hfc, hpre]
        rfl
      · rw [if_neg h2] at h
        rcases Option.map_eq_some'.mp h with ⟨nl, _, heq⟩
        left
        rw [← heq]

theorem table_hit_head (t : String) (ph : Option String)
    (hf : findReplacement t = some ph) :
    (t.data.map asciiLower).head? = some 'l' ∨
    (t.data.map asciiLower).head? = some '<' ∨
    (t.data.map asciiLower).head? = some '\\' := by
  by_cases h1 : ciPrefixMatch "lol" t = true
  · left
    unfold ciPrefixMatch at h1
    exact isPrefixOf_head 'l' ['o', 'l'] _ h1
  · by_cases h2 : ciPrefixMatch "<3" t = true
    · right; left
      unfold ciPrefixMatch at h2
      exact isPrefixOf_head '<' ['3'] _ h2
    · by_cases h3 : ciPrefixMatch "\\o/" t = true
      · right; right
        unfold ciPrefixMatch at h3
        exact isPrefixOf_head '\\' ['o', '/'] _ h3
      · exfalso
        have h1' : ciPrefixMatch "lol" t = false := by simpa using h1
        have h2' : ciPrefixMatch "<3" t = false := by simpa using h2
        have h3' : ciPrefixMatch "\\o/" t = false := by simpa using h3
        simp [findReplacement, TOKEN_REPLACEMENT_MAP, List.find?, h1', h2', h3'] at hf

theorem schemeIsHttp_false_of_head (s : String) (c : Char)
    (hne : ('h' == c) = false) (hh : s.data = [] ∨ s.data.head? = some c) :
    schemeIsHttp s = false := by
  unfold schemeIsHttp
  cases hh with
  | inl h => rw [h]; rfl
  | inr h =>
    cases hd : s.data with
    | nil => rfl
    | cons b bs =>
      rw [hd] at h
      injection h with h
      subst h
      simp [List.isPrefixOf, hne]

/-! ## C10: table-matched tokens -/

/-- C10 counterexample: the token `lol://[a` matches the table pattern
`lol`, yet `clean_token` does not return the phoneme replacement: the
`urlparse` call that precedes the table loop — and sits outside the `try` —
raises `ValueError("Invalid IPv6 URL")` on its bracket netloc, so the
exception propagates instead. -/
theorem table_token_ipv6_raises :
    ciPrefixMatch "lol" "lol://[a" = true ∧ clean_token "lol://[a" = none :=
  ⟨rfl, rfl⟩

/-- C10 (amended): for every token that matches a table pattern and whose
url pre-parse does not raise, `clean_token` returns immediately with the
table replacement applied to the original token — for a `ph:` entry the
phoneme markup wraps the un-escaped token — skipping the collapse, escaping
and asterisk-emphasis steps. -/
theorem table_token_immediate_replacement : ∀ (t : String) (pr : String × String)
    (ph : Option String), pyUrlparse t = some pr → findReplacement t = some ph →
    clean_token t = some (applyReplacement ph t) := by
  intro t pr ph hu hf
  have hhead := table_hit_head t ph hf
  have hsh := pyUrlparse_scheme_head t pr hu
  have hscheme : schemeIsHttp pr.1 = false := by
    rcases hhead with h | h | h
    · exact schemeIsHttp_false_of_head _ 'l' (by decide)
        (Or.imp_right (fun b => b.trans h) hsh)
    · exact schemeIsHttp_false_of_head _ '<' (by decide)
        (Or.imp_right (fun b => b.trans h) hsh)
    · exact schemeIsHttp_false_of_head _ '\\' (by decide)
        (Or.imp_right (fun b => b.trans h) hsh)
  simp [clean_token, hu, hscheme, hf]

/-- C10 witness: the concrete token `lol`, replaced by its phoneme markup. -/
theorem table_token_immediate_replacement_w :
    clean_token "lol" = some (applyReplacement (some "ph:l o l") "lol") :=
  table_token_immediate_replacement "lol" ("", "") (some "ph:l o l") rfl rfl
